import Mathlib

/-!
Verification of the finger-picker elimination game ("the chosen one").

The development shallowly embeds the core of `src/App.tsx`:

* the Contact Registry (`fingers`, a JS `Map<number, Finger>` modelled as an
  insertion-ordered association list of `Finger` records keyed by `id`),
* the color allocator `randomUniqueColor`,
* the registry mutations `upsertFinger` and `removeFinger` (with their sound
  signals modelled as an emitted list of `Sound` values),
* the elimination-timer tick callback and the scheduler-reconciliation effect
  (keyed, as in the source, on `Array.from(fingers.keys()).toString()`),
* the pointer event handlers `onPointerDown` / `onPointerMove` / `onPointerUp`.

Randomness (`Math.random()`) is modelled as an externally supplied stream of
rationals `Nat → ℚ`; each call site consumes draws at fixed indices.  A JS
`window.setInterval` handle is modelled as an `Option Nat` holding a fresh
identifier, so that stopping, starting and restarting the timer are all
observable.
-/

namespace TheChosenOne

/-- Sound effects the core asks the audio collaborator to play
(`playSound("add" | "remove" | "win")` in the source). -/
inductive Sound where
  | add
  | remove
  | win
deriving DecidableEq, Repr

/-- The `Finger` record of the source: one tracked contact. -/
structure Finger where
  id : Nat
  x : Int
  y : Int
  color : String
  createdAt : Nat
deriving DecidableEq, Repr

/-- Check `map.has(id)` on the association-list model of the JS `Map`. -/
def mapHas (m : List Finger) (id : Nat) : Bool :=
  m.any (fun g => g.id == id)

/-- Check `map.get(id)` on the association-list model of the JS `Map`. -/
def mapGet (m : List Finger) (id : Nat) : Option Finger :=
  m.find? (fun g => g.id == id)

/-- Model of `map.set(id, f)` on a JS `Map`: an existing key keeps its
insertion position and gets the new value; a fresh key is appended. -/
def mapSet (m : List Finger) (id : Nat) (f : Finger) : List Finger :=
  if mapHas m id then m.map (fun g => if g.id == id then f else g)
  else m ++ [f]

/-- Model of `map.delete(id)` on a JS `Map`. -/
def mapDelete (m : List Finger) (id : Nat) : List Finger :=
  m.filter (fun g => g.id != id)

/-- Model of `Array.from(map.keys())`: the keys in insertion order. -/
def mapKeys (m : List Finger) : List Nat :=
  m.map (fun g => g.id)

/-- Render the template literal `hsl(${h} ${s}% ${l}%)` of the source. -/
def hslColor (h s l : Int) : String :=
  "hsl(" ++ Int.repr h ++ " " ++ Int.repr s ++ "% " ++ Int.repr l ++ "%)"

/-- The color candidate produced by iteration `i` of the loop in
`randomUniqueColor`: `h = ⌊rand·360⌋`, `s = 70 + ⌊rand·15⌋`,
`l = 45 + ⌊rand·8⌋`, with the three `Math.random()` calls of iteration `i`
consuming stream indices `3*i`, `3*i+1`, `3*i+2`. -/
def colorDraw (rand : Nat → ℚ) (i : Nat) : String :=
  let h : Int := ⌊rand (3 * i) * 360⌋
  let s : Int := 70 + ⌊rand (3 * i + 1) * 15⌋
  let l : Int := 45 + ⌊rand (3 * i + 2) * 8⌋
  hslColor h s l

/-- The fallback `hsl(${Math.floor(Math.random() * 360)} 75% 50%)` returned
after all 30 attempts collide; it consumes stream index 90 (the 91st draw). -/
def fallbackColor (rand : Nat → ℚ) : String :=
  hslColor ⌊rand 90 * 360⌋ 75 50

/-- The retry loop of `randomUniqueColor`, with `fuel` remaining iterations
and `i` the current value of the loop counter `tries`. -/
def randomUniqueColorAux (rand : Nat → ℚ) (existing : List String) :
    Nat → Nat → String
  | 0, _ => fallbackColor rand
  | fuel + 1, i =>
    let c := colorDraw rand i
    if existing.contains c then randomUniqueColorAux rand existing fuel (i + 1)
    else c

/-- Model of `randomUniqueColor(existing)`: up to 30 random draws in
hue/saturation/lightness space, returning the first one not in `existing`,
and a final random fallback color if all 30 collide. -/
def randomUniqueColor (rand : Nat → ℚ) (existing : List String) : String :=
  randomUniqueColorAux rand existing 30 0

/-- Model of `upsertFinger(id, clientX, clientY)` acting on the registry;
the emitted sound list records the `playSound` calls of the updater. -/
def upsertFinger (rand : Nat → ℚ) (now : Nat) (id : Nat) (clientX clientY : Int)
    (prev : List Finger) : List Finger × List Sound :=
  let existing := prev.map (fun f => f.color)
  if mapHas prev id then
    match mapGet prev id with
    | some f => (mapSet prev id { f with x := clientX, y := clientY }, [])
    | none => (prev, [])
  else
    let color := randomUniqueColor rand existing
    (mapSet prev id { id := id, x := clientX, y := clientY, color := color,
                      createdAt := now }, [Sound.add])

/-- Model of `removeFinger(id)`: a present id is deleted, and `remove` is
played only when at least one contact survives; an absent id is a no-op. -/
def removeFinger (id : Nat) (prev : List Finger) : List Finger × List Sound :=
  if mapHas prev id then
    let next := mapDelete prev id
    (next, if 0 < next.length then [Sound.remove] else [])
  else (prev, [])

/-- Default page background `#0A0A0A`. -/
def DEFAULT_BG : String := "#0A0A0A"

/-- The elimination cadence (4000 ms). -/
def ELIMINATION_INTERVAL : Nat := 4000

/-- The mutable state of `FingerPickerGame`: the registry, the winner and
background state, and the interval handle `eliminationTimerRef.current`
(`some h` when an interval is installed).  `nextTimerId` is a counter used to
hand out fresh interval handles, so a restarted timer is distinguishable from
an untouched one. -/
structure GameState where
  fingers : List Finger
  winnerId : Option Nat
  bgColor : String
  timer : Option Nat
  nextTimerId : Nat
deriving DecidableEq, Repr

/-- The state at mount: empty registry, no winner, default background,
no timer installed. -/
def initialState : GameState :=
  { fingers := [], winnerId := none, bgColor := DEFAULT_BG,
    timer := none, nextTimerId := 0 }

/-- Model of `resetEliminationTimer` minus the tick callback itself: clear any
installed interval, and install a fresh one unless at most one finger
remains. -/
def resetEliminationTimer (st : GameState) : GameState :=
  let st1 := { st with timer := none }
  if st1.fingers.length ≤ 1 then st1
  else { st1 with timer := some st1.nextTimerId,
                  nextTimerId := st1.nextTimerId + 1 }

/-- The dependency value of the reconciliation effect:
`Array.from(fingers.keys()).toString()`, i.e. the decimal keys joined by
commas. -/
def fingersDepKey (m : List Finger) : String :=
  String.intercalate "," ((mapKeys m).map Nat.repr)

/-- Body of the reconciliation `useEffect`: with more than one finger the
timer is (re)started; otherwise it is cleared, and an empty registry also
clears the winner and resets the background. -/
def reconcileScheduler (st : GameState) : GameState :=
  if 1 < st.fingers.length then resetEliminationTimer st
  else
    let st1 := { st with timer := none }
    if st1.fingers.length = 0 then
      { st1 with winnerId := none, bgColor := DEFAULT_BG }
    else st1

/-- React's keyed effect execution: the reconciliation body runs exactly when
the dependency string computed from the new registry differs from the one of
the previous render. -/
def runEffect (oldKey : String) (st : GameState) : GameState :=
  if fingersDepKey st.fingers = oldKey then st else reconcileScheduler st

/-- Model of `keys[Math.floor(Math.random() * keys.length)]`: floor the
scaled random draw and index into the key array; a negative or too-large
index yields `undefined` (modelled as `none`). -/
def tickLoser (rand : Nat → ℚ) (keys : List Nat) : Option Nat :=
  let idx : Int := ⌊rand 0 * (keys.length : ℚ)⌋
  if 0 ≤ idx then keys[idx.toNat]? else none

/-- Model of one firing of the `setInterval` callback installed by
`resetEliminationTimer`: defensively stop when at most one finger remains;
otherwise delete the randomly selected loser (deleting `undefined` is a
no-op), play `remove` when survivors remain, and on reaching size one declare
the sole survivor the winner and play `win`. -/
def eliminationTick (rand : Nat → ℚ) (st : GameState) : GameState × List Sound :=
  let prev := st.fingers
  if prev.length ≤ 1 then
    ({ st with timer := none }, [])
  else
    let next := match tickLoser rand (mapKeys prev) with
      | some loserId => mapDelete prev loserId
      | none => prev
    let s1 : List Sound := if 0 < next.length then [Sound.remove] else []
    if next.length = 1 then
      match next with
      | f0 :: _ =>
        let finalId := f0.id
        match mapGet next finalId with
        | some _ =>
          ({ st with fingers := next, winnerId := some finalId },
           s1 ++ [Sound.win])
        | none =>
          ({ st with fingers := next, winnerId := some finalId }, s1)
      | [] => ({ st with fingers := next }, s1)
    else
      ({ st with fingers := next }, s1)

/-- Pointer type of a DOM pointer event. -/
inductive PtrType where
  | mouse
  | touch
  | pen
deriving DecidableEq, Repr

/-- The fields of a DOM `PointerEvent` the handlers consult. -/
structure PtrEvent where
  pointerId : Nat
  clientX : Int
  clientY : Int
  pointerType : PtrType
  button : Nat
  isPrimary : Bool
deriving DecidableEq, Repr

/-- One event delivered to the component on the single-threaded event loop:
a pointer down / move / up-or-cancel event, or a firing of the elimination
interval. -/
inductive Event where
  | pointerDown (e : PtrEvent)
  | pointerMove (e : PtrEvent)
  | pointerUp (e : PtrEvent)
  | timerFire
deriving DecidableEq, Repr

/-- One step of the component: run the handler for the event (a timer firing
is delivered only while an interval is installed), then run the keyed
reconciliation effect against the previous dependency string. -/
def step (rand : Nat → ℚ) (now : Nat) (st : GameState) (ev : Event) :
    GameState × List Sound :=
  let oldKey := fingersDepKey st.fingers
  match ev with
  | .pointerDown e =>
    if e.pointerType = PtrType.mouse ∧ e.button ≠ 0 then (st, [])
    else
      let r := upsertFinger rand now e.pointerId e.clientX e.clientY st.fingers
      (runEffect oldKey { st with fingers := r.1 }, r.2)
  | .pointerMove e =>
    if ¬ e.isPrimary ∧ e.pointerType = PtrType.mouse then (st, [])
    else if mapHas st.fingers e.pointerId then
      let r := upsertFinger rand now e.pointerId e.clientX e.clientY st.fingers
      (runEffect oldKey { st with fingers := r.1 }, r.2)
    else (st, [])
  | .pointerUp e =>
    let r := removeFinger e.pointerId st.fingers
    (runEffect oldKey { st with fingers := r.1 }, r.2)
  | .timerFire =>
    match st.timer with
    | none => (st, [])
    | some _ =>
      let r := eliminationTick rand st
      (runEffect oldKey r.1, r.2)

/-- One event together with the random stream and clock value it is handled
under. -/
structure Input where
  rand : Nat → ℚ
  now : Nat
  ev : Event

/-- Run a sequence of inputs from the mount state. -/
def runInputs (l : List Input) : GameState :=
  l.foldl (fun st i => (step i.rand i.now st i.ev).1) initialState

/-- A registry-level operation: one call of `upsertFinger` or
`removeFinger`. -/
inductive RegOp where
  | upsert (rand : Nat → ℚ) (now : Nat) (id : Nat) (x y : Int)
  | remove (id : Nat)

/-- Apply one registry operation. -/
def applyRegOp (m : List Finger) : RegOp → List Finger
  | .upsert rand now id x y => (upsertFinger rand now id x y m).1
  | .remove id => (removeFinger id m).1

/-- Replay a sequence of registry operations from the empty registry. -/
def replay (ops : List RegOp) : List Finger :=
  ops.foldl applyRegOp []

/-- Count, along the replay from `m`, the upserts whose id is absent at the
moment they execute (the adds of fresh ids). -/
def countFreshAdds (m : List Finger) : List RegOp → Nat
  | [] => 0
  | op :: rest =>
    (match op with
     | .upsert _ _ id _ _ => if mapHas m id then 0 else 1
     | .remove _ => 0) + countFreshAdds (applyRegOp m op) rest

/-- Count, along the replay from `m`, the removes whose id is present at the
moment they execute. -/
def countLiveRemoves (m : List Finger) : List RegOp → Nat
  | [] => 0
  | op :: rest =>
    (match op with
     | .upsert _ _ _ _ _ => 0
     | .remove id => if mapHas m id then 1 else 0) + countLiveRemoves (applyRegOp m op) rest

/-- Well-formedness of the registry model: the underlying association list
has pairwise distinct keys, as a JS `Map` does by construction. -/
def RegWF (m : List Finger) : Prop :=
  (mapKeys m).Nodup

/-- The cross-component invariant: a well-formed registry, and an interval
installed exactly while at least two fingers are registered. -/
def StateWF (st : GameState) : Prop :=
  RegWF st.fingers ∧ (st.timer.isSome ↔ 2 ≤ st.fingers.length)

/-! ### Basic lemmas about the association-list model of the JS `Map` -/

theorem mapHas_iff_mem_keys {m : List Finger} {id : Nat} :
    mapHas m id = true ↔ id ∈ mapKeys m := by
  simp only [mapHas, mapKeys, List.any_eq_true, List.mem_map, beq_iff_eq]

theorem mapSet_absent {m : List Finger} {id : Nat} (f : Finger)
    (h : mapHas m id = false) : mapSet m id f = m ++ [f] := by
  simp [mapSet, h]

theorem mapSet_present {m : List Finger} {id : Nat} (f : Finger)
    (h : mapHas m id = true) :
    mapSet m id f = m.map (fun g => if g.id == id then f else g) := by
  simp [mapSet, h]

theorem mapKeys_mapSet_present {m : List Finger} {id : Nat} {f : Finger}
    (h : mapHas m id = true) (hf : f.id = id) :
    mapKeys (mapSet m id f) = mapKeys m := by
  rw [mapSet_present f h]
  simp only [mapKeys, List.map_map]
  apply List.map_congr_left
  intro g _
  by_cases hg : g.id = id
  · simp [hg, hf]
  · simp [hg]

theorem mapKeys_mapDelete (m : List Finger) (id : Nat) :
    mapKeys (mapDelete m id) = (mapKeys m).filter (fun k => k != id) := by
  simp [mapKeys, mapDelete]
  induction m with
  | nil => rfl
  | cons g rest ih =>
    by_cases hg : g.id = id
    · simp [hg, ih]
    · simp [hg, ih]

theorem filter_ne_length {ks : List Nat} {id : Nat} (hwf : ks.Nodup)
    (hmem : id ∈ ks) :
    (ks.filter (fun k => k != id)).length + 1 = ks.length := by
  induction ks with
  | nil => cases hmem
  | cons k rest ih =>
    have hk : k ∉ rest := (List.nodup_cons.mp hwf).1
    have hwf' : rest.Nodup := (List.nodup_cons.mp hwf).2
    rcases List.mem_cons.mp hmem with rfl | hmem'
    · have hrest : rest.filter (fun a => a != id) = rest := by
        apply List.filter_eq_self.mpr
        intro a ha
        simp only [bne_iff_ne, ne_eq, decide_eq_true_eq]
        rintro rfl
        exact hk ha
      simp [List.filter_cons, hrest]
    · have hkid : k ≠ id := by
        rintro rfl
        exact hk hmem'
      have hih := ih hwf' hmem'
      have hcond : (k != id) = true := by simp [hkid]
      simp only [List.filter_cons, hcond, if_true, List.length_cons]
      omega

theorem length_mapDelete_of_present {m : List Finger} {id : Nat}
    (hwf : RegWF m) (h : mapHas m id = true) :
    (mapDelete m id).length + 1 = m.length := by
  have hmem : id ∈ mapKeys m := mapHas_iff_mem_keys.mp h
  have hlen : (mapDelete m id).length = (mapKeys (mapDelete m id)).length := by
    simp [mapKeys]
  have hlen' : m.length = (mapKeys m).length := by simp [mapKeys]
  rw [hlen, hlen', mapKeys_mapDelete]
  exact filter_ne_length hwf hmem

theorem mapGet_mapSet_self {m : List Finger} {id : Nat} {f : Finger}
    (h : mapHas m id = true) (hf : f.id = id) :
    mapGet (mapSet m id f) id = some f := by
  rw [mapSet_present f h]
  unfold mapGet
  induction m with
  | nil => simp [mapHas] at h
  | cons g rest ih =>
    rw [List.map_cons]
    by_cases hg : g.id = id
    · rw [List.find?_cons_of_pos]
      · simp [hg]
      · simp [hg, hf]
    · rw [List.find?_cons_of_neg]
      · apply ih
        unfold mapHas at h ⊢
        rw [List.any_cons] at h
        cases hgc : (g.id == id) with
        | false => simpa [hgc] using h
        | true => exact absurd (by simpa using hgc) hg
      · simp [hg]

theorem mem_mapSet_of_ne {m : List Finger} {id : Nat} {f g : Finger}
    (hg : g ∈ m) (hne : g.id ≠ id) : g ∈ mapSet m id f := by
  unfold mapSet
  by_cases h : mapHas m id
  · simp only [h, if_true]
    have : (fun g' => if g'.id == id then f else g') g = g := by simp [hne]
    exact this ▸ List.mem_map_of_mem _ hg
  · simp only [h, if_false]
    exact List.mem_append_left _ hg

/-! ### The color allocator -/

theorem colorDraw_congr {rand rand' : Nat → ℚ} (i : Nat)
    (h0 : rand (3 * i) = rand' (3 * i))
    (h1 : rand (3 * i + 1) = rand' (3 * i + 1))
    (h2 : rand (3 * i + 2) = rand' (3 * i + 2)) :
    colorDraw rand i = colorDraw rand' i := by
  simp [colorDraw, h0, h1, h2]

theorem randomUniqueColorAux_congr {rand rand' : Nat → ℚ}
    (existing : List String) :
    ∀ fuel i, 3 * (i + fuel) ≤ 90 → (∀ j, j < 91 → rand j = rand' j) →
      randomUniqueColorAux rand existing fuel i
        = randomUniqueColorAux rand' existing fuel i
  | 0, i, _, hagree => by
    simp [randomUniqueColorAux, fallbackColor, hagree 90 (by omega)]
  | fuel + 1, i, hbound, hagree => by
    have hdraw : colorDraw rand i = colorDraw rand' i :=
      colorDraw_congr i (hagree _ (by omega)) (hagree _ (by omega))
        (hagree _ (by omega))
    have hrec := randomUniqueColorAux_congr existing fuel (i + 1)
      (by omega) hagree
    simp only [randomUniqueColorAux, hdraw]
    split
    · exact hrec
    · rfl

theorem randomUniqueColorAux_all_collide (rand : Nat → ℚ)
    (existing : List String) :
    ∀ fuel i, (∀ k, k < fuel → existing.contains (colorDraw rand (i + k)) = true) →
      randomUniqueColorAux rand existing fuel i = fallbackColor rand
  | 0, i, _ => rfl
  | fuel + 1, i, hall => by
    have h0 : existing.contains (colorDraw rand i) = true := by
      simpa using hall 0 (by omega)
    have hrec := randomUniqueColorAux_all_collide rand existing fuel (i + 1)
      (fun k hk => by
        have := hall (k + 1) (by omega)
        simpa [Nat.add_assoc, Nat.add_comm 1 k] using this)
    simp only [randomUniqueColorAux, h0, if_true]
    exact hrec

theorem randomUniqueColorAux_first_free (rand : Nat → ℚ)
    (existing : List String) :
    ∀ fuel i k, k < fuel →
      existing.contains (colorDraw rand (i + k)) = false →
      (∀ j, j < k → existing.contains (colorDraw rand (i + j)) = true) →
      randomUniqueColorAux rand existing fuel i = colorDraw rand (i + k)
  | 0, _, k, hk, _, _ => absurd hk (by omega)
  | fuel + 1, i, k, hk, hfree, hbefore => by
    match k with
    | 0 =>
      have h0 : existing.contains (colorDraw rand i) = false := by
        simpa using hfree
      simp only [randomUniqueColorAux, h0, Bool.false_eq_true, if_false]
      congr 1
    | k + 1 =>
      have h0 : existing.contains (colorDraw rand i) = true := by
        simpa using hbefore 0 (by omega)
      have hrec := randomUniqueColorAux_first_free rand existing fuel (i + 1) k
        (by omega)
        (by
          have : i + 1 + k = i + (k + 1) := by omega
          rw [this]; exact hfree)
        (fun j hj => by
          have := hbefore (j + 1) (by omega)
          have heq : i + 1 + j = i + (j + 1) := by omega
          rw [heq]; exact this)
      simp only [randomUniqueColorAux, h0, if_true]
      rw [hrec]
      congr 1
      omega

/-! ### The dependency string of the reconciliation effect

The effect re-runs exactly when `Array.from(fingers.keys()).toString()`
changes, so we prove that appending a fresh key or deleting a present key
always changes the joined string (the decimal numeral of a key is nonempty,
hence the string strictly grows or shrinks). -/

theorem intercalate_go_length (s : String) :
    ∀ (bs : List String) (acc : String),
      (String.intercalate.go acc s bs).length
        = acc.length + (bs.map String.length).sum + s.length * bs.length
  | [], acc => by simp [String.intercalate.go]
  | b :: bs, acc => by
    rw [show String.intercalate.go acc s (b :: bs)
          = String.intercalate.go (acc ++ s ++ b) s bs from by
        simp [String.intercalate.go]]
    rw [intercalate_go_length s bs (acc ++ s ++ b)]
    simp only [String.length_append, List.map_cons, List.sum_cons,
      List.length_cons]
    ring

theorem length_intercalate_comma :
    ∀ (l : List String), l ≠ [] →
      (String.intercalate "," l).length
        = (l.map String.length).sum + (l.length - 1)
  | [], h => absurd rfl h
  | a :: bs, _ => by
    rw [show String.intercalate "," (a :: bs)
          = String.intercalate.go a "," bs from rfl,
      intercalate_go_length]
    have hc : ("," : String).length = 1 := rfl
    simp only [hc, List.map_cons, List.sum_cons, List.length_cons]
    omega

theorem le_length_toDigitsCore (b : Nat) :
    ∀ (fuel n : Nat) (ds : List Char),
      ds.length ≤ (Nat.toDigitsCore b fuel n ds).length
  | 0, _, _ => le_refl _
  | fuel + 1, n, ds => by
    simp only [Nat.toDigitsCore]
    split
    · simp
    · exact le_trans (by simp)
        (le_length_toDigitsCore b fuel (n / b) ((n % b).digitChar :: ds))

theorem one_le_length_repr (n : Nat) : 1 ≤ (Nat.repr n).length := by
  show 1 ≤ (Nat.toDigits 10 n).asString.length
  have hstr : (Nat.toDigits 10 n).asString.length = (Nat.toDigits 10 n).length :=
    rfl
  rw [hstr]
  show 1 ≤ (Nat.toDigitsCore 10 (n + 1) n []).length
  simp only [Nat.toDigitsCore]
  split
  · simp
  · exact le_trans (by simp)
      (le_length_toDigitsCore 10 n (n / 10) [(n % 10).digitChar])

theorem map_length_repr (l : List Nat) :
    (List.map String.length (List.map Nat.repr l)).sum
      = (List.map (fun k => (Nat.repr k).length) l).sum := by
  rw [List.map_map]
  rfl

theorem sum_le_sum_filter (p : Nat → Bool) :
    ∀ ks : List Nat,
      ((ks.filter p).map (fun k => (Nat.repr k).length)).sum
        ≤ (ks.map (fun k => (Nat.repr k).length)).sum
  | [] => le_refl _
  | k :: rest => by
    have ih := sum_le_sum_filter p rest
    cases hk : p k with
    | true =>
      simp only [List.filter_cons, hk, if_true, List.map_cons, List.sum_cons]
      omega
    | false =>
      simp only [List.filter_cons, hk, Bool.false_eq_true, if_false,
        List.map_cons, List.sum_cons]
      omega

theorem sum_filter_ne_lt {id : Nat} :
    ∀ {ks : List Nat}, id ∈ ks →
      ((ks.filter (fun k => k != id)).map (fun k => (Nat.repr k).length)).sum + 1
        ≤ (ks.map (fun k => (Nat.repr k).length)).sum
  | [], hmem => absurd hmem (List.not_mem_nil id)
  | k :: rest, hmem => by
    by_cases hk : k = id
    · subst hk
      have hfil : (k :: rest).filter (fun a => a != k)
          = rest.filter (fun a => a != k) := by
        simp [List.filter_cons]
      rw [hfil]
      have hle := sum_le_sum_filter (fun a => a != k) rest
      have hr := one_le_length_repr k
      simp only [List.map_cons, List.sum_cons]
      omega
    · have hmem' : id ∈ rest := by
        rcases List.mem_cons.mp hmem with h | h
        · exact absurd h.symm hk
        · exact h
      have ih := sum_filter_ne_lt hmem'
      have hcond : (k != id) = true := by simp [hk]
      simp only [List.filter_cons, hcond, if_true, List.map_cons,
        List.sum_cons]
      omega

theorem keys_string_length (ks : List Nat) (h : ks ≠ []) :
    (String.intercalate "," (ks.map Nat.repr)).length
      = (ks.map (fun k => (Nat.repr k).length)).sum + (ks.length - 1) := by
  have hne : ks.map Nat.repr ≠ [] := fun hmap => h (List.map_eq_nil_iff.mp hmap)
  rw [length_intercalate_comma _ hne, map_length_repr, List.length_map]

theorem keys_string_append_ne (ks : List Nat) (id : Nat) :
    String.intercalate "," ((ks ++ [id]).map Nat.repr)
      ≠ String.intercalate "," (ks.map Nat.repr) := by
  intro heq
  have hlen := congrArg String.length heq
  have hr := one_le_length_repr id
  have hL := keys_string_length (ks ++ [id]) (by simp)
  rw [hL] at hlen
  cases ks with
  | nil =>
    have hR : (String.intercalate ","
        ((([] : List Nat)).map Nat.repr)).length = 0 := rfl
    rw [hR] at hlen
    simp only [List.nil_append, List.map_cons, List.map_nil, List.sum_cons,
      List.sum_nil, List.length_cons, List.length_nil] at hlen
    omega
  | cons k rest =>
    have hR := keys_string_length (k :: rest) (by simp)
    rw [hR] at hlen
    simp only [List.map_append, List.map_cons, List.map_nil, List.sum_append,
      List.sum_cons, List.sum_nil, List.length_append, List.length_cons,
      List.length_nil] at hlen
    omega

theorem keys_string_filter_ne {ks : List Nat} {id : Nat} (hwf : ks.Nodup)
    (hmem : id ∈ ks) :
    String.intercalate "," ((ks.filter (fun k => k != id)).map Nat.repr)
      ≠ String.intercalate "," (ks.map Nat.repr) := by
  intro heq
  have hlen := congrArg String.length heq
  have hcount := filter_ne_length hwf hmem
  have hsum := sum_filter_ne_lt hmem
  have hksne : ks ≠ [] := by
    intro h
    subst h
    exact List.not_mem_nil id hmem
  have hR := keys_string_length ks hksne
  rw [hR] at hlen
  have hks1 : 1 ≤ (ks.map (fun k => (Nat.repr k).length)).sum := by omega
  cases hfil : ks.filter (fun k => k != id) with
  | nil =>
    rw [hfil] at hlen
    have hL : (String.intercalate ","
        ((([] : List Nat)).map Nat.repr)).length = 0 := rfl
    rw [hL] at hlen
    omega
  | cons a rest =>
    have hL := keys_string_length (a :: rest) (by simp)
    rw [hfil] at hlen
    rw [hL] at hlen
    rw [hfil] at hsum hcount
    simp only [List.length_cons] at hlen hcount
    omega

theorem fingersDepKey_congr {m m' : List Finger}
    (h : mapKeys m' = mapKeys m) : fingersDepKey m' = fingersDepKey m := by
  unfold fingersDepKey
  rw [h]

theorem fingersDepKey_append_ne {m : List Finger} {m' : List Finger} {id : Nat}
    (h : mapKeys m' = mapKeys m ++ [id]) :
    fingersDepKey m' ≠ fingersDepKey m := by
  unfold fingersDepKey
  rw [h]
  exact keys_string_append_ne (mapKeys m) id

theorem fingersDepKey_delete_ne {m : List Finger} {id : Nat}
    (hwf : RegWF m) (h : mapHas m id = true) :
    fingersDepKey (mapDelete m id) ≠ fingersDepKey m := by
  unfold fingersDepKey
  rw [mapKeys_mapDelete]
  exact keys_string_filter_ne hwf (mapHas_iff_mem_keys.mp h)

/-! ### Keys and length of the registry after each operation -/

theorem mapKeys_upsertFinger_absent {m : List Finger} {id : Nat}
    (rand : Nat → ℚ) (now : Nat) (x y : Int) (h : mapHas m id = false) :
    mapKeys (upsertFinger rand now id x y m).1 = mapKeys m ++ [id] := by
  simp only [upsertFinger, h, Bool.false_eq_true, if_false]
  rw [mapSet_absent _ h]
  simp [mapKeys]

theorem mapKeys_upsertFinger_present {m : List Finger} {id : Nat}
    (rand : Nat → ℚ) (now : Nat) (x y : Int) (h : mapHas m id = true) :
    mapKeys (upsertFinger rand now id x y m).1 = mapKeys m := by
  simp only [upsertFinger, h, if_true]
  cases hf : mapGet m id with
  | none => rfl
  | some f =>
    have hfid : f.id = id := by
      have := List.find?_some hf
      simpa using this
    exact mapKeys_mapSet_present h (by simpa using hfid)

theorem removeFinger_fst_present {m : List Finger} {id : Nat}
    (h : mapHas m id = true) : (removeFinger id m).1 = mapDelete m id := by
  simp [removeFinger, h]

theorem removeFinger_fst_absent {m : List Finger} {id : Nat}
    (h : mapHas m id = false) : (removeFinger id m).1 = m := by
  simp [removeFinger, h]

theorem length_eq_length_mapKeys (m : List Finger) :
    m.length = (mapKeys m).length := by
  simp [mapKeys]

theorem regWF_applyRegOp {m : List Finger} (hwf : RegWF m) (op : RegOp) :
    RegWF (applyRegOp m op) := by
  cases op with
  | upsert rand now id x y =>
    cases h : mapHas m id with
    | true =>
      unfold RegWF
      rw [applyRegOp, mapKeys_upsertFinger_present rand now x y h]
      exact hwf
    | false =>
      unfold RegWF
      rw [applyRegOp, mapKeys_upsertFinger_absent rand now x y h]
      have hid : id ∉ mapKeys m := fun hmem =>
        by simp [mapHas_iff_mem_keys.mpr hmem] at h
      exact List.Nodup.append hwf (List.nodup_singleton id)
        (fun a ha hb => by
          simp only [List.mem_singleton] at hb
          subst hb
          exact hid ha)
  | remove id =>
    cases h : mapHas m id with
    | true =>
      unfold RegWF
      rw [applyRegOp, removeFinger_fst_present h, mapKeys_mapDelete]
      exact hwf.filter _
    | false =>
      unfold RegWF
      rw [applyRegOp, removeFinger_fst_absent h]
      exact hwf

theorem length_applyRegOp_upsert_absent {m : List Finger} {id : Nat}
    (rand : Nat → ℚ) (now : Nat) (x y : Int) (h : mapHas m id = false) :
    (applyRegOp m (.upsert rand now id x y)).length = m.length + 1 := by
  rw [applyRegOp, length_eq_length_mapKeys,
    mapKeys_upsertFinger_absent rand now x y h, length_eq_length_mapKeys m]
  simp

theorem length_applyRegOp_upsert_present {m : List Finger} {id : Nat}
    (rand : Nat → ℚ) (now : Nat) (x y : Int) (h : mapHas m id = true) :
    (applyRegOp m (.upsert rand now id x y)).length = m.length := by
  rw [applyRegOp, length_eq_length_mapKeys,
    mapKeys_upsertFinger_present rand now x y h, length_eq_length_mapKeys m]

theorem length_applyRegOp_remove_present {m : List Finger} {id : Nat}
    (hwf : RegWF m) (h : mapHas m id = true) :
    (applyRegOp m (.remove id)).length + 1 = m.length := by
  rw [applyRegOp, removeFinger_fst_present h]
  exact length_mapDelete_of_present hwf h

theorem replay_invariant : ∀ (ops : List RegOp) (m : List Finger),
    RegWF m →
    RegWF (ops.foldl applyRegOp m)
    ∧ (ops.foldl applyRegOp m).length + countLiveRemoves m ops
        = m.length + countFreshAdds m ops
  | [], m, hwf => ⟨hwf, by simp [countLiveRemoves, countFreshAdds]⟩
  | op :: rest, m, hwf => by
    have hwf' : RegWF (applyRegOp m op) := regWF_applyRegOp hwf op
    have ih := replay_invariant rest (applyRegOp m op) hwf'
    refine ⟨by simpa [List.foldl_cons] using ih.1, ?_⟩
    have hlen := ih.2
    rw [List.foldl_cons]
    cases op with
    | upsert rand now id x y =>
      cases h : mapHas m id with
      | true =>
        have hstep := length_applyRegOp_upsert_present rand now x y h
        simp only [countLiveRemoves, countFreshAdds, h, if_true]
        omega
      | false =>
        have hstep := length_applyRegOp_upsert_absent rand now x y h
        simp only [countLiveRemoves, countFreshAdds, h, Bool.false_eq_true,
          if_false]
        omega
    | remove id =>
      cases h : mapHas m id with
      | true =>
        have hstep := length_applyRegOp_remove_present hwf h
        simp only [countLiveRemoves, countFreshAdds, h, if_true]
        omega
      | false =>
        have hstep : (applyRegOp m (.remove id)).length = m.length := by
          rw [applyRegOp, removeFinger_fst_absent h]
        simp only [countLiveRemoves, countFreshAdds, h, Bool.false_eq_true,
          if_false]
        omega

/-! ### The scheduler reconciliation effect and the elimination tick -/

theorem runEffect_eq_self {oldKey : String} {st : GameState}
    (h : fingersDepKey st.fingers = oldKey) : runEffect oldKey st = st := by
  simp [runEffect, h]

theorem runEffect_eq_reconcile {oldKey : String} {st : GameState}
    (h : ¬ fingersDepKey st.fingers = oldKey) :
    runEffect oldKey st = reconcileScheduler st := by
  simp [runEffect, h]

theorem reconcileScheduler_fingers (st : GameState) :
    (reconcileScheduler st).fingers = st.fingers := by
  by_cases h1 : 1 < st.fingers.length
  · have h2 : ¬ st.fingers.length ≤ 1 := by omega
    simp [reconcileScheduler, resetEliminationTimer, h1, h2]
  · by_cases h0 : st.fingers.length = 0 <;>
      simp [reconcileScheduler, h1, h0]

theorem reconcileScheduler_timer_isSome (st : GameState) :
    (reconcileScheduler st).timer.isSome = true ↔ 2 ≤ st.fingers.length := by
  by_cases h1 : 1 < st.fingers.length
  · have h2 : ¬ st.fingers.length ≤ 1 := by omega
    simp only [reconcileScheduler, resetEliminationTimer, h1, if_true]
    simp [h2]
    omega
  · by_cases h0 : st.fingers.length = 0
    · simp [reconcileScheduler, h1, h0]
    · simp [reconcileScheduler, h1, h0]
      omega

theorem reconcileScheduler_winnerId (st : GameState) :
    (reconcileScheduler st).winnerId
      = if st.fingers.length = 0 then none else st.winnerId := by
  by_cases h1 : 1 < st.fingers.length
  · have h2 : ¬ st.fingers.length ≤ 1 := by omega
    have h0 : ¬ st.fingers.length = 0 := by omega
    simp [reconcileScheduler, resetEliminationTimer, h1, h2, h0]
  · by_cases h0 : st.fingers.length = 0 <;>
      simp [reconcileScheduler, h1, h0]

theorem regWF_mapDelete {m : List Finger} (hwf : RegWF m) (id : Nat) :
    RegWF (mapDelete m id) := by
  unfold RegWF
  rw [mapKeys_mapDelete]
  exact hwf.filter _

theorem stateWF_of_reconcile {st : GameState} (hreg : RegWF st.fingers) :
    StateWF (reconcileScheduler st) := by
  constructor
  · unfold RegWF
    rw [reconcileScheduler_fingers]
    exact hreg
  · rw [reconcileScheduler_fingers]
    exact reconcileScheduler_timer_isSome st

theorem tickLoser_mem {rand : Nat → ℚ} {keys : List Nat} {k : Nat}
    (h : tickLoser rand keys = some k) : k ∈ keys := by
  simp only [tickLoser] at h
  split at h
  · exact List.getElem?_mem h
  · exact absurd h (by simp)

theorem tickLoser_spec {rand : Nat → ℚ} {keys : List Nat}
    (h1 : 1 ≤ keys.length) (h0 : 0 ≤ rand 0) (hlt : rand 0 < 1) :
    0 ≤ ⌊rand 0 * (keys.length : ℚ)⌋
    ∧ (⌊rand 0 * (keys.length : ℚ)⌋).toNat < keys.length
    ∧ ∃ k, k ∈ keys ∧ tickLoser rand keys = some k := by
  have hlen : (0 : ℚ) < (keys.length : ℚ) := by
    have : 0 < keys.length := h1
    exact_mod_cast this
  have hnn : 0 ≤ rand 0 * (keys.length : ℚ) := mul_nonneg h0 (le_of_lt hlen)
  have hfl0 : 0 ≤ ⌊rand 0 * (keys.length : ℚ)⌋ := Int.floor_nonneg.mpr hnn
  have hmul : rand 0 * (keys.length : ℚ) < (keys.length : ℚ) := by
    calc rand 0 * (keys.length : ℚ)
        < 1 * (keys.length : ℚ) := mul_lt_mul_of_pos_right hlt hlen
      _ = (keys.length : ℚ) := one_mul _
  have hflt : ⌊rand 0 * (keys.length : ℚ)⌋ < ((keys.length : ℤ)) :=
    Int.floor_lt.mpr (by exact_mod_cast hmul)
  have htn : (⌊rand 0 * (keys.length : ℚ)⌋).toNat < keys.length :=
    (Int.toNat_lt hfl0).mpr hflt
  refine ⟨hfl0, htn, keys[(⌊rand 0 * (keys.length : ℚ)⌋).toNat], ?_, ?_⟩
  · exact List.getElem_mem htn
  · simp only [tickLoser]
    rw [if_pos hfl0, List.getElem?_eq_getElem htn]

theorem eliminationTick_low {rand : Nat → ℚ} {st : GameState}
    (h : st.fingers.length ≤ 1) :
    eliminationTick rand st = ({ st with timer := none }, []) := by
  simp [eliminationTick, h]

theorem eliminationTick_none {rand : Nat → ℚ} {st : GameState}
    (h2 : 2 ≤ st.fingers.length)
    (hl : tickLoser rand (mapKeys st.fingers) = none) :
    eliminationTick rand st = (st, [Sound.remove]) := by
  have h : ¬ st.fingers.length ≤ 1 := by omega
  have hlen1 : ¬ st.fingers.length = 1 := by omega
  have hpos : 0 < st.fingers.length := by omega
  simp [eliminationTick, h, hl, hlen1, hpos]

theorem eliminationTick_some_frame {rand : Nat → ℚ} {st : GameState} {k : Nat}
    (h2 : 2 ≤ st.fingers.length)
    (hl : tickLoser rand (mapKeys st.fingers) = some k) :
    (eliminationTick rand st).1.fingers = mapDelete st.fingers k
    ∧ (eliminationTick rand st).1.timer = st.timer
    ∧ (eliminationTick rand st).1.nextTimerId = st.nextTimerId
    ∧ (eliminationTick rand st).1.bgColor = st.bgColor := by
  have h : ¬ st.fingers.length ≤ 1 := by omega
  simp only [eliminationTick, h, if_false, hl]
  split
  · split
    · split <;> simp
    · simp
  · simp

theorem eliminationTick_some_two {rand : Nat → ℚ} {st : GameState} {k : Nat}
    (hwf : RegWF st.fingers) (hlen : st.fingers.length = 2)
    (hl : tickLoser rand (mapKeys st.fingers) = some k)
    (hk : mapHas st.fingers k = true) :
    ∃ f, mapDelete st.fingers k = [f]
      ∧ eliminationTick rand st
          = ({ st with fingers := [f], winnerId := some f.id },
             [Sound.remove, Sound.win]) := by
  have hdel := length_mapDelete_of_present hwf hk
  have hdl : (mapDelete st.fingers k).length = 1 := by omega
  obtain ⟨f, hf⟩ := List.length_eq_one.mp hdl
  refine ⟨f, hf, ?_⟩
  have h : ¬ st.fingers.length ≤ 1 := by omega
  have hget : mapGet [f] f.id = some f := by simp [mapGet, List.find?]
  simp [eliminationTick, h, hl, hf, hget]

theorem eliminationTick_some_big {rand : Nat → ℚ} {st : GameState} {k : Nat}
    (hwf : RegWF st.fingers) (hlen : 3 ≤ st.fingers.length)
    (hl : tickLoser rand (mapKeys st.fingers) = some k)
    (hk : mapHas st.fingers k = true) :
    eliminationTick rand st
      = ({ st with fingers := mapDelete st.fingers k }, [Sound.remove]) := by
  have hdel := length_mapDelete_of_present hwf hk
  have h1 : ¬ (mapDelete st.fingers k).length = 1 := by omega
  have hpos : 0 < (mapDelete st.fingers k).length := by omega
  have h : ¬ st.fingers.length ≤ 1 := by omega
  simp [eliminationTick, h, hl, h1, hpos]

theorem mapGet_isSome_of_mapHas {m : List Finger} {id : Nat}
    (h : mapHas m id = true) : ∃ f, mapGet m id = some f := by
  unfold mapHas at h
  unfold mapGet
  rw [List.any_eq_true] at h
  obtain ⟨g, hg, hp⟩ := h
  cases hfind : List.find? (fun g => g.id == id) m with
  | some f => exact ⟨f, rfl⟩
  | none => exact absurd hp (List.find?_eq_none.mp hfind g hg)

theorem upsertFinger_present_map {m : List Finger} {id : Nat} {f : Finger}
    (rand : Nat → ℚ) (now : Nat) (x y : Int)
    (h : mapHas m id = true) (hf : mapGet m id = some f) :
    (upsertFinger rand now id x y m).1
      = m.map (fun g => if g.id == id then { f with x := x, y := y } else g) := by
  simp only [upsertFinger, h, if_true, hf]
  exact mapSet_present _ h

theorem upsertFinger_present_snd {m : List Finger} {id : Nat}
    (rand : Nat → ℚ) (now : Nat) (x y : Int) (h : mapHas m id = true) :
    (upsertFinger rand now id x y m).2 = [] := by
  simp only [upsertFinger, h, if_true]
  cases hf : mapGet m id <;> rfl

theorem step_down_state {rand : Nat → ℚ} {now : Nat} {st : GameState}
    {e : PtrEvent} (hg : ¬ (e.pointerType = PtrType.mouse ∧ e.button ≠ 0)) :
    step rand now st (Event.pointerDown e)
      = (runEffect (fingersDepKey st.fingers)
          { st with fingers := (upsertFinger rand now e.pointerId e.clientX
              e.clientY st.fingers).1 },
         (upsertFinger rand now e.pointerId e.clientX e.clientY st.fingers).2) := by
  simp only [step]
  rw [if_neg hg]

theorem step_move_state {rand : Nat → ℚ} {now : Nat} {st : GameState}
    {e : PtrEvent} (hg : ¬ (¬ e.isPrimary ∧ e.pointerType = PtrType.mouse))
    (hhas : mapHas st.fingers e.pointerId = true) :
    step rand now st (Event.pointerMove e)
      = (runEffect (fingersDepKey st.fingers)
          { st with fingers := (upsertFinger rand now e.pointerId e.clientX
              e.clientY st.fingers).1 },
         (upsertFinger rand now e.pointerId e.clientX e.clientY st.fingers).2) := by
  simp only [step]
  rw [if_neg hg]
  simp only [hhas, if_true]

theorem step_move_untracked {rand : Nat → ℚ} {now : Nat} {st : GameState}
    {e : PtrEvent} (hhas : mapHas st.fingers e.pointerId = false) :
    step rand now st (Event.pointerMove e) = (st, []) := by
  by_cases hg : ¬ e.isPrimary ∧ e.pointerType = PtrType.mouse
  · simp only [step]
    rw [if_pos hg]
  · simp only [step]
    rw [if_neg hg]
    simp [hhas]

theorem step_up_state (rand : Nat → ℚ) (now : Nat) (st : GameState)
    (e : PtrEvent) :
    step rand now st (Event.pointerUp e)
      = (runEffect (fingersDepKey st.fingers)
          { st with fingers := (removeFinger e.pointerId st.fingers).1 },
         (removeFinger e.pointerId st.fingers).2) := by
  simp only [step]

theorem step_upsert_present_state {rand : Nat → ℚ} {now : Nat}
    {st : GameState} {id : Nat} {x y : Int}
    (hhas : mapHas st.fingers id = true) :
    runEffect (fingersDepKey st.fingers)
        { st with fingers := (upsertFinger rand now id x y st.fingers).1 }
      = { st with fingers := (upsertFinger rand now id x y st.fingers).1 } :=
  runEffect_eq_self (by
    simpa using fingersDepKey_congr (mapKeys_upsertFinger_present rand now x y hhas))

/-! ### Preservation of the cross-component invariant -/

theorem stateWF_initial : StateWF initialState := by
  constructor
  · simp [RegWF, initialState, mapKeys]
  · simp [initialState]

theorem stateWF_step (rand : Nat → ℚ) (now : Nat) (st : GameState)
    (ev : Event) (hwf : StateWF st) : StateWF (step rand now st ev).1 := by
  obtain ⟨hreg, htimer⟩ := hwf
  cases ev with
  | pointerDown e =>
    by_cases hg : e.pointerType = PtrType.mouse ∧ e.button ≠ 0
    · simp only [step]
      rw [if_pos hg]
      exact ⟨hreg, htimer⟩
    · simp only [step]
      rw [if_neg hg]
      cases hhas : mapHas st.fingers e.pointerId with
      | true =>
        have hkeys := mapKeys_upsertFinger_present rand now e.clientX
          e.clientY hhas
        rw [runEffect_eq_self (by simpa using fingersDepKey_congr hkeys)]
        constructor
        · unfold RegWF
          simpa [hkeys] using hreg
        · have hlen : (upsertFinger rand now e.pointerId e.clientX e.clientY
              st.fingers).1.length = st.fingers.length := by
            rw [length_eq_length_mapKeys, hkeys, ← length_eq_length_mapKeys]
          simpa [hlen] using htimer
      | false =>
        have hkeys := mapKeys_upsertFinger_absent rand now e.clientX
          e.clientY hhas
        rw [runEffect_eq_reconcile (by simpa using fingersDepKey_append_ne hkeys)]
        apply stateWF_of_reconcile
        unfold RegWF
        show (mapKeys (upsertFinger rand now e.pointerId e.clientX e.clientY
          st.fingers).1).Nodup
        rw [hkeys]
        have hid : e.pointerId ∉ mapKeys st.fingers := fun hmem =>
          by simp [mapHas_iff_mem_keys.mpr hmem] at hhas
        exact List.Nodup.append hreg (List.nodup_singleton _)
          (fun a ha hb => by
            simp only [List.mem_singleton] at hb
            subst hb
            exact hid ha)
  | pointerMove e =>
    by_cases hg : ¬ e.isPrimary ∧ e.pointerType = PtrType.mouse
    · simp only [step]
      rw [if_pos hg]
      exact ⟨hreg, htimer⟩
    · simp only [step]
      rw [if_neg hg]
      cases hhas : mapHas st.fingers e.pointerId with
      | true =>
        simp only [if_true]
        have hkeys := mapKeys_upsertFinger_present rand now e.clientX
          e.clientY hhas
        rw [runEffect_eq_self (by simpa using fingersDepKey_congr hkeys)]
        constructor
        · unfold RegWF
          simpa [hkeys] using hreg
        · have hlen : (upsertFinger rand now e.pointerId e.clientX e.clientY
              st.fingers).1.length = st.fingers.length := by
            rw [length_eq_length_mapKeys, hkeys, ← length_eq_length_mapKeys]
          simpa [hlen] using htimer
      | false =>
        simp only [Bool.false_eq_true, if_false]
        exact ⟨hreg, htimer⟩
  | pointerUp e =>
    cases hhas : mapHas st.fingers e.pointerId with
    | true =>
      have hfst := removeFinger_fst_present hhas
      simp only [step, hfst]
      rw [runEffect_eq_reconcile
        (by simpa using fingersDepKey_delete_ne hreg hhas)]
      apply stateWF_of_reconcile
      exact regWF_mapDelete hreg _
    | false =>
      have hfst := removeFinger_fst_absent hhas
      simp only [step, hfst]
      rw [runEffect_eq_self rfl]
      exact ⟨hreg, htimer⟩
  | timerFire =>
    cases hto : st.timer with
    | none =>
      simp only [step, hto]
      exact ⟨hreg, htimer⟩
    | some t =>
      have h2 : 2 ≤ st.fingers.length := htimer.mp (by simp [hto])
      simp only [step, hto]
      cases hl : tickLoser rand (mapKeys st.fingers) with
      | none =>
        rw [eliminationTick_none h2 hl]
        rw [runEffect_eq_self rfl]
        exact ⟨hreg, htimer⟩
      | some k =>
        have hk : mapHas st.fingers k = true :=
          mapHas_iff_mem_keys.mpr (tickLoser_mem hl)
        obtain ⟨hfin, -, -, -⟩ := eliminationTick_some_frame h2 hl
        rw [runEffect_eq_reconcile (by
          rw [hfin]
          simpa using fingersDepKey_delete_ne hreg hk)]
        apply stateWF_of_reconcile
        rw [show RegWF (eliminationTick rand st).1.fingers
            = RegWF (mapDelete st.fingers k) from by rw [hfin]]
        exact regWF_mapDelete hreg _

theorem stateWF_runInputs_aux :
    ∀ (l : List Input) (st : GameState), StateWF st →
      StateWF (l.foldl (fun st i => (step i.rand i.now st i.ev).1) st)
  | [], _, h => h
  | i :: rest, st, h => by
    rw [List.foldl_cons]
    exact stateWF_runInputs_aux rest _ (stateWF_step i.rand i.now st i.ev h)

theorem stateWF_runInputs (l : List Input) : StateWF (runInputs l) :=
  stateWF_runInputs_aux l initialState stateWF_initial

/-! ### Claim theorems: the Contact Registry contract -/

/-- C3: replaying any sequence of upsert/remove operations from the empty
registry yields a registry without duplicate ids, whose size equals the
number of upserts of fresh ids minus the number of removes of ids present at
the time of removal (the count of live removes never exceeds the count of
fresh adds, so the difference is a plain natural number). -/
theorem claim_C3 (ops : List RegOp) :
    RegWF (replay ops)
    ∧ (replay ops).length + countLiveRemoves [] ops = countFreshAdds [] ops
    ∧ (replay ops).length = countFreshAdds [] ops - countLiveRemoves [] ops
    ∧ countLiveRemoves [] ops ≤ countFreshAdds [] ops := by
  have h := replay_invariant ops [] (by simp [RegWF, mapKeys])
  have hlen : (replay ops).length + countLiveRemoves [] ops
      = 0 + countFreshAdds [] ops := h.2
  exact ⟨h.1, by omega, by omega, by omega⟩

/-- C5: an upsert of an absent id appends a new contact carrying a freshly
allocated color, the given position and the current timestamp, and emits the
"added" signal; an upsert of a present id stores the old record with only the
position replaced (same color and `createdAt`), keeps the key list unchanged
(no duplicate entry), leaves every other contact untouched, and emits no
signal. -/
theorem claim_C5 (rand : Nat → ℚ) (now : Nat) (id : Nat) (x y : Int)
    (m : List Finger) :
    (mapHas m id = false →
      upsertFinger rand now id x y m =
        (m ++ [{ id := id, x := x, y := y,
                 color := randomUniqueColor rand
                   (List.map (fun f : Finger => f.color) m),
                 createdAt := now }], [Sound.add]))
    ∧ (mapHas m id = true → ∀ f, mapGet m id = some f →
        (upsertFinger rand now id x y m).1
            = mapSet m id { f with x := x, y := y }
        ∧ (upsertFinger rand now id x y m).2 = []
        ∧ mapKeys (upsertFinger rand now id x y m).1 = mapKeys m
        ∧ mapGet (upsertFinger rand now id x y m).1 id
            = some { f with x := x, y := y }
        ∧ ∀ g ∈ m, g.id ≠ id → g ∈ (upsertFinger rand now id x y m).1) := by
  constructor
  · intro h
    simp only [upsertFinger, h, Bool.false_eq_true, if_false]
    rw [mapSet_absent _ h]
  · intro h f hf
    have hfid : f.id = id := by
      have := List.find?_some hf
      simpa using this
    have h1 : (upsertFinger rand now id x y m).1
        = mapSet m id { f with x := x, y := y } := by
      simp [upsertFinger, h, hf]
    refine ⟨h1, ?_, ?_, ?_, ?_⟩
    · simp [upsertFinger, h, hf]
    · rw [h1]
      exact mapKeys_mapSet_present h (by simpa using hfid)
    · rw [h1]
      exact mapGet_mapSet_self h (by simpa using hfid)
    · intro g hg hne
      rw [h1]
      exact mem_mapSet_of_ne hg hne

/-- Witness for C5 at concrete inputs: a fresh upsert of id 5 into the empty
registry, and a position-only upsert of id 5 into a one-entry registry. -/
theorem claim_C5_witness :
    (upsertFinger (fun _ => (0 : ℚ)) 7 5 10 20 [] =
      ([{ id := 5, x := 10, y := 20,
          color := randomUniqueColor (fun _ => (0 : ℚ))
            (List.map (fun f : Finger => f.color) ([] : List Finger)),
          createdAt := 7 }], [Sound.add]))
    ∧ (upsertFinger (fun _ => (0 : ℚ)) 7 5 10 20
          [{ id := 5, x := 0, y := 0, color := "c", createdAt := 3 }]).2
        = [] := by
  constructor
  · exact (claim_C5 (fun _ => (0 : ℚ)) 7 5 10 20 []).1 rfl
  · exact ((claim_C5 (fun _ => (0 : ℚ)) 7 5 10 20
      [{ id := 5, x := 0, y := 0, color := "c", createdAt := 3 }]).2 rfl
      { id := 5, x := 0, y := 0, color := "c", createdAt := 3 } rfl).2.1

/-- C6: removing a present id deletes it and emits the "removed" signal
exactly when at least one contact survives; removing an absent id leaves the
registry unchanged and emits nothing. -/
theorem claim_C6 (id : Nat) (m : List Finger) :
    (mapHas m id = true →
      (removeFinger id m).1 = mapDelete m id
      ∧ (removeFinger id m).2
          = (if 0 < (mapDelete m id).length then [Sound.remove] else []))
    ∧ (mapHas m id = false → removeFinger id m = (m, [])) := by
  constructor
  · intro h
    constructor <;> simp [removeFinger, h]
  · intro h
    simp [removeFinger, h]

/-- Witness for C6 at concrete inputs: removing id 1 from a two-entry
registry (signal fires), removing the only id 1 (no signal), and removing the
absent id 9 (no-op). -/
theorem claim_C6_witness :
    ((removeFinger 1 [{ id := 1, x := 0, y := 0, color := "a", createdAt := 0 },
                      { id := 2, x := 0, y := 0, color := "b", createdAt := 0 }]).2
        = [Sound.remove])
    ∧ ((removeFinger 1
          [{ id := 1, x := 0, y := 0, color := "a", createdAt := 0 }]).2 = [])
    ∧ (removeFinger 9 [{ id := 1, x := 0, y := 0, color := "a", createdAt := 0 }]
        = ([{ id := 1, x := 0, y := 0, color := "a", createdAt := 0 }], [])) := by
  refine ⟨?_, ?_, ?_⟩
  · have h := ((claim_C6 1
      [{ id := 1, x := 0, y := 0, color := "a", createdAt := 0 },
       { id := 2, x := 0, y := 0, color := "b", createdAt := 0 }]).1 rfl).2
    rw [h]
    decide
  · have h := ((claim_C6 1
      [{ id := 1, x := 0, y := 0, color := "a", createdAt := 0 }]).1 rfl).2
    rw [h]
    decide
  · exact (claim_C6 9
      [{ id := 1, x := 0, y := 0, color := "a", createdAt := 0 }]).2 rfl

/-- C7: the color allocator consumes a bounded number of random draws (its
result depends only on the first 91 stream values, i.e. the 30 loop draws of
three components each plus the single fallback draw); it returns the first of
the 30 drawn colors avoiding the in-use set if one exists, and the fallback
random color when all 30 draws collide — in every case it returns a color. -/
theorem claim_C7 (rand rand' : Nat → ℚ) (existing : List String) :
    ((∀ j, j < 91 → rand j = rand' j) →
      randomUniqueColor rand existing = randomUniqueColor rand' existing)
    ∧ (∀ k, k < 30 →
        existing.contains (colorDraw rand k) = false →
        (∀ j, j < k → existing.contains (colorDraw rand j) = true) →
        randomUniqueColor rand existing = colorDraw rand k)
    ∧ ((∀ k, k < 30 → existing.contains (colorDraw rand k) = true) →
        randomUniqueColor rand existing = fallbackColor rand) := by
  refine ⟨?_, ?_, ?_⟩
  · intro hagree
    exact randomUniqueColorAux_congr existing 30 0 (by omega) hagree
  · intro k hk hfree hbefore
    have := randomUniqueColorAux_first_free rand existing 30 0 k hk
      (by simpa using hfree) (by simpa using hbefore)
    simpa [randomUniqueColor] using this
  · intro hall
    exact randomUniqueColorAux_all_collide rand existing 30 0
      (by simpa using hall)

/-- Witness for C7 at concrete inputs: with the constant-zero stream every
draw is `hsl(0 70% 45%)`, so against an empty in-use set the first draw is
returned, and against an in-use set holding exactly that color the fallback
`hsl(0 75% 50%)` is returned. -/
theorem claim_C7_witness :
    randomUniqueColor (fun _ => (0 : ℚ)) [] = colorDraw (fun _ => (0 : ℚ)) 0
    ∧ randomUniqueColor (fun _ => (0 : ℚ)) ["hsl(0 70% 45%)"]
        = fallbackColor (fun _ => (0 : ℚ)) := by
  constructor
  · exact (claim_C7 (fun _ => (0 : ℚ)) (fun _ => (0 : ℚ)) []).2.1 0
      (by omega) rfl (fun j hj => absurd hj (by omega))
  · refine (claim_C7 (fun _ => (0 : ℚ)) (fun _ => (0 : ℚ))
      ["hsl(0 70% 45%)"]).2.2 (fun k _ => ?_)
    have hdraw : colorDraw (fun _ => (0 : ℚ)) k = "hsl(0 70% 45%)" := by
      simp [colorDraw, hslColor]
      with_unfolding_all rfl
    rw [hdraw]
    decide

/-! ### Claim theorems: the game state machine -/

/-- C2: after any sequence of events from the mount state the elimination
interval is installed exactly when at least two fingers are registered, and a
tick that observes at most one finger stops the timer and leaves the registry
(and everything else) unchanged, emitting no sound. -/
theorem claim_C2 :
    (∀ inputs : List Input,
      (runInputs inputs).timer.isSome = true
        ↔ 2 ≤ (runInputs inputs).fingers.length)
    ∧ (∀ (rand : Nat → ℚ) (now : Nat) (st : GameState) (t : Nat),
        st.timer = some t → st.fingers.length ≤ 1 →
        step rand now st Event.timerFire = ({ st with timer := none }, [])) := by
  constructor
  · intro inputs
    exact (stateWF_runInputs inputs).2
  · intro rand now st t hto hlen
    simp only [step, hto]
    rw [eliminationTick_low hlen]
    have hre := @runEffect_eq_self (fingersDepKey st.fingers)
      { st with timer := none } rfl
    rw [hre]

/-- Witness for C2 at concrete inputs: the invariant after two pointer-down
events, and a defensive tick on a one-finger state with a stale interval. -/
theorem claim_C2_witness :
    ((runInputs
        [{ rand := fun _ => (0 : ℚ), now := 0,
           ev := Event.pointerDown
             { pointerId := 1, clientX := 5, clientY := 5,
               pointerType := PtrType.touch, button := 0, isPrimary := true } },
         { rand := fun _ => (0 : ℚ), now := 1,
           ev := Event.pointerDown
             { pointerId := 2, clientX := 9, clientY := 9,
               pointerType := PtrType.touch, button := 0, isPrimary := true } }]).timer.isSome
       = true
      ↔ 2 ≤ (runInputs
        [{ rand := fun _ => (0 : ℚ), now := 0,
           ev := Event.pointerDown
             { pointerId := 1, clientX := 5, clientY := 5,
               pointerType := PtrType.touch, button := 0, isPrimary := true } },
         { rand := fun _ => (0 : ℚ), now := 1,
           ev := Event.pointerDown
             { pointerId := 2, clientX := 9, clientY := 9,
               pointerType := PtrType.touch, button := 0, isPrimary := true } }]).fingers.length)
    ∧ step (fun _ => (0 : ℚ)) 0
        { fingers := [{ id := 3, x := 0, y := 0, color := "a", createdAt := 0 }],
          winnerId := none, bgColor := DEFAULT_BG, timer := some 4,
          nextTimerId := 5 } Event.timerFire
      = ({ fingers := [{ id := 3, x := 0, y := 0, color := "a", createdAt := 0 }],
           winnerId := none, bgColor := DEFAULT_BG, timer := none,
           nextTimerId := 5 }, []) := by
  constructor
  · exact claim_C2.1 _
  · exact claim_C2.2 (fun _ => (0 : ℚ)) 0
      { fingers := [{ id := 3, x := 0, y := 0, color := "a", createdAt := 0 }],
        winnerId := none, bgColor := DEFAULT_BG, timer := some 4,
        nextTimerId := 5 } 4 rfl (by decide)

/-- C9: on a tick observing at least two registered fingers, for any random
value `r` with `0 ≤ r < 1` the index `⌊r · keys.length⌋` is within the bounds
of the key array, the selected loser is a key actually present in the
registry, its deletion succeeds, and the registry size decreases by exactly
one. -/
theorem claim_C9 (rand : Nat → ℚ) (st : GameState)
    (hwf : RegWF st.fingers) (h2 : 2 ≤ st.fingers.length)
    (h0 : 0 ≤ rand 0) (h1 : rand 0 < 1) :
    0 ≤ ⌊rand 0 * ((mapKeys st.fingers).length : ℚ)⌋
    ∧ (⌊rand 0 * ((mapKeys st.fingers).length : ℚ)⌋).toNat
        < (mapKeys st.fingers).length
    ∧ ∃ k, mapHas st.fingers k = true
        ∧ tickLoser rand (mapKeys st.fingers) = some k
        ∧ (eliminationTick rand st).1.fingers = mapDelete st.fingers k
        ∧ (eliminationTick rand st).1.fingers.length + 1
            = st.fingers.length := by
  have hk1 : 1 ≤ (mapKeys st.fingers).length := by
    rw [← length_eq_length_mapKeys]
    omega
  obtain ⟨ha, hb, k, hmem, hsome⟩ := tickLoser_spec hk1 h0 h1
  have hk : mapHas st.fingers k = true := mapHas_iff_mem_keys.mpr hmem
  obtain ⟨hfin, -, -, -⟩ := eliminationTick_some_frame h2 hsome
  refine ⟨ha, hb, k, hk, hsome, hfin, ?_⟩
  rw [hfin]
  exact length_mapDelete_of_present hwf hk

/-- Witness for C9 at a concrete input: a two-finger registry and the
constant-zero random stream, which selects index 0. -/
theorem claim_C9_witness :
    0 ≤ ⌊(0 : ℚ) * ((mapKeys
        [{ id := 1, x := 0, y := 0, color := "a", createdAt := 0 },
         { id := 2, x := 0, y := 0, color := "b", createdAt := 0 }]).length : ℚ)⌋
    ∧ (⌊(0 : ℚ) * ((mapKeys
        [{ id := 1, x := 0, y := 0, color := "a", createdAt := 0 },
         { id := 2, x := 0, y := 0, color := "b", createdAt := 0 }]).length : ℚ)⌋).toNat
        < (mapKeys
        [{ id := 1, x := 0, y := 0, color := "a", createdAt := 0 },
         { id := 2, x := 0, y := 0, color := "b", createdAt := 0 }]).length
    ∧ ∃ k, mapHas
        [{ id := 1, x := 0, y := 0, color := "a", createdAt := 0 },
         { id := 2, x := 0, y := 0, color := "b", createdAt := 0 }] k = true
        ∧ tickLoser (fun _ => (0 : ℚ)) (mapKeys
            [{ id := 1, x := 0, y := 0, color := "a", createdAt := 0 },
             { id := 2, x := 0, y := 0, color := "b", createdAt := 0 }]) = some k
        ∧ (eliminationTick (fun _ => (0 : ℚ))
            { fingers :=
                [{ id := 1, x := 0, y := 0, color := "a", createdAt := 0 },
                 { id := 2, x := 0, y := 0, color := "b", createdAt := 0 }],
              winnerId := none, bgColor := DEFAULT_BG, timer := some 0,
              nextTimerId := 1 }).1.fingers
          = mapDelete
              [{ id := 1, x := 0, y := 0, color := "a", createdAt := 0 },
               { id := 2, x := 0, y := 0, color := "b", createdAt := 0 }] k
        ∧ (eliminationTick (fun _ => (0 : ℚ))
            { fingers :=
                [{ id := 1, x := 0, y := 0, color := "a", createdAt := 0 },
                 { id := 2, x := 0, y := 0, color := "b", createdAt := 0 }],
              winnerId := none, bgColor := DEFAULT_BG, timer := some 0,
              nextTimerId := 1 }).1.fingers.length + 1
            = ([{ id := 1, x := 0, y := 0, color := "a", createdAt := 0 },
                { id := 2, x := 0, y := 0, color := "b", createdAt := 0 }] :
                List Finger).length :=
  claim_C9 (fun _ => (0 : ℚ))
    { fingers := [{ id := 1, x := 0, y := 0, color := "a", createdAt := 0 },
                  { id := 2, x := 0, y := 0, color := "b", createdAt := 0 }],
      winnerId := none, bgColor := DEFAULT_BG, timer := some 0,
      nextTimerId := 1 }
    (by unfold RegWF; decide) (by decide) (by with_unfolding_all decide)
    (by with_unfolding_all decide)

/-- C1 (counterexample): on a concrete elimination tick that reduces the
registry from size 2 to size 1, the tick callback emits BOTH the ordinary
"removed" signal and the "winner" signal — two audio calls, not one — because
`playSound("remove")` is guarded only by `next.size > 0`, which also holds
when `next.size === 1`. -/
theorem claim_C1_counterexample :
    (step (fun _ => (0 : ℚ)) 0
      { fingers := [{ id := 1, x := 0, y := 0, color := "a", createdAt := 0 },
                    { id := 2, x := 0, y := 0, color := "b", createdAt := 0 }],
        winnerId := none, bgColor := DEFAULT_BG, timer := some 0,
        nextTimerId := 1 } Event.timerFire).2
      = [Sound.remove, Sound.win] := by
  with_unfolding_all decide

/-- C1 (amended): on an elimination tick that reduces the registry from size
2 to size 1 (any well-formed two-finger registry, installed timer, and an
in-range random draw), the audio collaborator is called exactly twice: the
ordinary "removed" signal fires and then the distinct "winner" signal fires —
the two signals are not mutually exclusive on this transition. -/
theorem claim_C1 (rand : Nat → ℚ) (now : Nat) (st : GameState)
    (hwf : RegWF st.fingers) (hlen : st.fingers.length = 2)
    (ht : st.timer.isSome = true) (h0 : 0 ≤ rand 0) (h1 : rand 0 < 1) :
    (step rand now st Event.timerFire).2 = [Sound.remove, Sound.win] := by
  obtain ⟨t, hto⟩ := Option.isSome_iff_exists.mp ht
  have h2 : 2 ≤ st.fingers.length := by omega
  have hk1 : 1 ≤ (mapKeys st.fingers).length := by
    rw [← length_eq_length_mapKeys]
    omega
  obtain ⟨-, -, k, hmem, hsome⟩ := tickLoser_spec hk1 h0 h1
  have hk : mapHas st.fingers k = true := mapHas_iff_mem_keys.mpr hmem
  obtain ⟨f, hf, htick⟩ := eliminationTick_some_two hwf hlen hsome hk
  simp only [step, hto]
  rw [htick]

/-- Witness for the amended C1 at a concrete input: a two-finger registry
with ids 5 and 6 and the constant-zero random stream. -/
theorem claim_C1_witness :
    (step (fun _ => (0 : ℚ)) 3
      { fingers := [{ id := 5, x := 1, y := 1, color := "c", createdAt := 2 },
                    { id := 6, x := 2, y := 2, color := "d", createdAt := 2 }],
        winnerId := none, bgColor := DEFAULT_BG, timer := some 7,
        nextTimerId := 8 } Event.timerFire).2
      = [Sound.remove, Sound.win] :=
  claim_C1 (fun _ => (0 : ℚ)) 3
    { fingers := [{ id := 5, x := 1, y := 1, color := "c", createdAt := 2 },
                  { id := 6, x := 2, y := 2, color := "d", createdAt := 2 }],
      winnerId := none, bgColor := DEFAULT_BG, timer := some 7,
      nextTimerId := 8 }
    (by unfold RegWF; decide) rfl rfl (by with_unfolding_all decide)
    (by with_unfolding_all decide)

/-- C10: a position-only update (a move event for an already-registered id)
leaves the set of registered keys unchanged, hence leaves the effect's
dependency string unchanged, so the reconciliation effect does not re-run:
the interval handle and the fresh-handle counter are both untouched — the
timer is neither stopped, started, nor restarted. -/
theorem claim_C10 (rand : Nat → ℚ) (now : Nat) (st : GameState) (e : PtrEvent)
    (hhas : mapHas st.fingers e.pointerId = true) :
    (step rand now st (Event.pointerMove e)).1.timer = st.timer
    ∧ (step rand now st (Event.pointerMove e)).1.nextTimerId = st.nextTimerId
    ∧ mapKeys (step rand now st (Event.pointerMove e)).1.fingers
        = mapKeys st.fingers
    ∧ fingersDepKey (step rand now st (Event.pointerMove e)).1.fingers
        = fingersDepKey st.fingers := by
  by_cases hg : ¬ e.isPrimary ∧ e.pointerType = PtrType.mouse
  · have hstep : step rand now st (Event.pointerMove e) = (st, []) := by
      simp only [step]
      rw [if_pos hg]
    rw [hstep]
    exact ⟨rfl, rfl, rfl, rfl⟩
  · rw [step_move_state hg hhas, step_upsert_present_state hhas]
    have hkeys := mapKeys_upsertFinger_present rand now e.clientX e.clientY hhas
    exact ⟨rfl, rfl, hkeys, fingersDepKey_congr hkeys⟩

/-- Witness for C10 at a concrete input: a move of the tracked id 1 in a
two-finger registry with an installed interval. -/
theorem claim_C10_witness :
    (step (fun _ => (0 : ℚ)) 9
      { fingers := [{ id := 1, x := 0, y := 0, color := "a", createdAt := 0 },
                    { id := 2, x := 3, y := 3, color := "b", createdAt := 0 }],
        winnerId := none, bgColor := DEFAULT_BG, timer := some 6,
        nextTimerId := 7 }
      (Event.pointerMove
        { pointerId := 1, clientX := 50, clientY := 60,
          pointerType := PtrType.touch, button := 0,
          isPrimary := true })).1.timer = some 6
    ∧ (step (fun _ => (0 : ℚ)) 9
      { fingers := [{ id := 1, x := 0, y := 0, color := "a", createdAt := 0 },
                    { id := 2, x := 3, y := 3, color := "b", createdAt := 0 }],
        winnerId := none, bgColor := DEFAULT_BG, timer := some 6,
        nextTimerId := 7 }
      (Event.pointerMove
        { pointerId := 1, clientX := 50, clientY := 60,
          pointerType := PtrType.touch, button := 0,
          isPrimary := true })).1.nextTimerId = 7 := by
  have h := claim_C10 (fun _ => (0 : ℚ)) 9
    { fingers := [{ id := 1, x := 0, y := 0, color := "a", createdAt := 0 },
                  { id := 2, x := 3, y := 3, color := "b", createdAt := 0 }],
      winnerId := none, bgColor := DEFAULT_BG, timer := some 6,
      nextTimerId := 7 }
    { pointerId := 1, clientX := 50, clientY := 60,
      pointerType := PtrType.touch, button := 0, isPrimary := true }
    rfl
  exact ⟨h.1, h.2.1⟩

/-- C8: a move event whose id is not in the registry is ignored outright —
the whole component state and the emitted sounds are exactly as before — and
a move event for a tracked id changes at most that contact's position: the
key list, the winner, the timer and every other contact's record are
unchanged, the moved contact keeps its id, color and creation time, and no
sound fires. -/
theorem claim_C8 (rand : Nat → ℚ) (now : Nat) (st : GameState) (e : PtrEvent) :
    (mapHas st.fingers e.pointerId = false →
      step rand now st (Event.pointerMove e) = (st, []))
    ∧ (mapHas st.fingers e.pointerId = true →
        mapKeys (step rand now st (Event.pointerMove e)).1.fingers
            = mapKeys st.fingers
        ∧ (step rand now st (Event.pointerMove e)).2 = []
        ∧ (step rand now st (Event.pointerMove e)).1.winnerId = st.winnerId
        ∧ (step rand now st (Event.pointerMove e)).1.timer = st.timer
        ∧ ∀ g ∈ (step rand now st (Event.pointerMove e)).1.fingers,
            ∃ g0, g0 ∈ st.fingers ∧ g.id = g0.id ∧ g.color = g0.color
              ∧ g.createdAt = g0.createdAt ∧ (g.id ≠ e.pointerId → g = g0)) := by
  constructor
  · exact fun hhas => step_move_untracked hhas
  · intro hhas
    by_cases hg : ¬ e.isPrimary ∧ e.pointerType = PtrType.mouse
    · have hstep : step rand now st (Event.pointerMove e) = (st, []) := by
        simp only [step]
        rw [if_pos hg]
      rw [hstep]
      refine ⟨rfl, rfl, rfl, rfl, fun g hgm => ⟨g, hgm, rfl, rfl, rfl, fun _ => rfl⟩⟩
    · obtain ⟨f, hfget⟩ := mapGet_isSome_of_mapHas hhas
      have hfid : f.id = e.pointerId := by
        have := List.find?_some hfget
        simpa using this
      have hfmem : f ∈ st.fingers := List.mem_of_find?_eq_some hfget
      rw [step_move_state hg hhas, step_upsert_present_state hhas]
      refine ⟨mapKeys_upsertFinger_present rand now e.clientX e.clientY hhas,
        upsertFinger_present_snd rand now e.clientX e.clientY hhas,
        rfl, rfl, ?_⟩
      intro g hgm
      rw [show ({ st with fingers := (upsertFinger rand now e.pointerId
          e.clientX e.clientY st.fingers).1 } : GameState).fingers
          = (upsertFinger rand now e.pointerId e.clientX e.clientY
              st.fingers).1 from rfl,
        upsertFinger_present_map rand now e.clientX e.clientY hhas hfget]
        at hgm
      obtain ⟨g0, hg0, hgeq⟩ := List.mem_map.mp hgm
      by_cases hid : g0.id = e.pointerId
      · have hge : g = { f with x := e.clientX, y := e.clientY } := by
          rw [← hgeq]
          simp [hid]
        refine ⟨f, hfmem, by rw [hge], by rw [hge], by rw [hge], ?_⟩
        intro hne
        exact absurd (by rw [hge]; exact hfid) hne
      · have hge : g = g0 := by
          rw [← hgeq]
          simp [hid]
        exact ⟨g0, hg0, by rw [hge], by rw [hge], by rw [hge], fun _ => hge⟩

/-- Witness for C8 at concrete inputs: an untracked move (id 9) on a
one-finger registry is a strict no-op, and a tracked move (id 1) emits no
sound. -/
theorem claim_C8_witness :
    step (fun _ => (0 : ℚ)) 4
      { fingers := [{ id := 1, x := 0, y := 0, color := "a", createdAt := 0 }],
        winnerId := none, bgColor := DEFAULT_BG, timer := none,
        nextTimerId := 0 }
      (Event.pointerMove
        { pointerId := 9, clientX := 8, clientY := 8,
          pointerType := PtrType.touch, button := 0, isPrimary := true })
      = ({ fingers := [{ id := 1, x := 0, y := 0, color := "a", createdAt := 0 }],
           winnerId := none, bgColor := DEFAULT_BG, timer := none,
           nextTimerId := 0 }, [])
    ∧ (step (fun _ => (0 : ℚ)) 4
      { fingers := [{ id := 1, x := 0, y := 0, color := "a", createdAt := 0 }],
        winnerId := none, bgColor := DEFAULT_BG, timer := none,
        nextTimerId := 0 }
      (Event.pointerMove
        { pointerId := 1, clientX := 8, clientY := 8,
          pointerType := PtrType.touch, button := 0, isPrimary := true })).2
      = [] := by
  constructor
  · exact (claim_C8 (fun _ => (0 : ℚ)) 4
      { fingers := [{ id := 1, x := 0, y := 0, color := "a", createdAt := 0 }],
        winnerId := none, bgColor := DEFAULT_BG, timer := none,
        nextTimerId := 0 }
      { pointerId := 9, clientX := 8, clientY := 8,
        pointerType := PtrType.touch, button := 0, isPrimary := true }).1 rfl
  · exact ((claim_C8 (fun _ => (0 : ℚ)) 4
      { fingers := [{ id := 1, x := 0, y := 0, color := "a", createdAt := 0 }],
        winnerId := none, bgColor := DEFAULT_BG, timer := none,
        nextTimerId := 0 }
      { pointerId := 1, clientX := 8, clientY := 8,
        pointerType := PtrType.touch, button := 0, isPrimary := true }).2
      rfl).2.1

/-- C4: `winnerId` is never newly set by pointer input — down and move events
leave it unchanged, and the removal of a present id leaves it unchanged
except that it is cleared (set to `none`) exactly when the registry becomes
empty; removal of an absent id changes nothing.  The elimination tick from
size 2 to size 1 sets `winnerId` to the sole surviving contact's id, and this
is the ONLY tick that can change `winnerId` at all: every other timer firing
(no interval installed, defensive tick at size ≤ 1, tick at size ≥ 3, or a
tick whose random index selects no loser) leaves `winnerId` unchanged. -/
theorem claim_C4 :
    (∀ (rand : Nat → ℚ) (now : Nat) (st : GameState) (e : PtrEvent),
      (step rand now st (Event.pointerDown e)).1.winnerId = st.winnerId
      ∧ (step rand now st (Event.pointerMove e)).1.winnerId = st.winnerId)
    ∧ (∀ (rand : Nat → ℚ) (now : Nat) (st : GameState) (e : PtrEvent),
        RegWF st.fingers →
        (mapHas st.fingers e.pointerId = true →
          (step rand now st (Event.pointerUp e)).1.winnerId
            = if (step rand now st (Event.pointerUp e)).1.fingers.length = 0
              then none else st.winnerId)
        ∧ (mapHas st.fingers e.pointerId = false →
          (step rand now st (Event.pointerUp e)).1 = st))
    ∧ (∀ (rand : Nat → ℚ) (now : Nat) (st : GameState),
        RegWF st.fingers → st.fingers.length = 2 →
        st.timer.isSome = true → 0 ≤ rand 0 → rand 0 < 1 →
        ∃ f, f ∈ st.fingers
          ∧ (step rand now st Event.timerFire).1.fingers = [f]
          ∧ (step rand now st Event.timerFire).1.winnerId = some f.id)
    ∧ (∀ (rand : Nat → ℚ) (now : Nat) (st : GameState),
        RegWF st.fingers →
        (step rand now st Event.timerFire).1.winnerId = st.winnerId
        ∨ (st.fingers.length = 2 ∧ ∃ f, f ∈ st.fingers
            ∧ (step rand now st Event.timerFire).1.fingers = [f]
            ∧ (step rand now st Event.timerFire).1.winnerId = some f.id)) := by
  refine ⟨?_, ?_, ?_, ?_⟩
  · intro rand now st e
    constructor
    · by_cases hg : e.pointerType = PtrType.mouse ∧ e.button ≠ 0
      · have hstep : step rand now st (Event.pointerDown e) = (st, []) := by
          simp only [step]
          rw [if_pos hg]
        rw [hstep]
      · rw [step_down_state hg]
        cases hhas : mapHas st.fingers e.pointerId with
        | true => rw [step_upsert_present_state hhas]
        | false =>
          have hkeys := mapKeys_upsertFinger_absent rand now e.clientX
            e.clientY hhas
          have hstate : (runEffect (fingersDepKey st.fingers)
              { st with fingers := (upsertFinger rand now e.pointerId
                  e.clientX e.clientY st.fingers).1 },
              (upsertFinger rand now e.pointerId e.clientX e.clientY
                st.fingers).2).1
              = reconcileScheduler
                  { st with fingers := (upsertFinger rand now e.pointerId
                      e.clientX e.clientY st.fingers).1 } := by
            rw [runEffect_eq_reconcile (by simpa using fingersDepKey_append_ne hkeys)]
          rw [hstate, reconcileScheduler_winnerId]
          have hlen : (upsertFinger rand now e.pointerId e.clientX e.clientY
              st.fingers).1.length = st.fingers.length + 1 := by
            rw [length_eq_length_mapKeys, hkeys]
            simp [← length_eq_length_mapKeys]
          have hne0 : ¬ ({ st with fingers := (upsertFinger rand now
              e.pointerId e.clientX e.clientY st.fingers).1 } :
              GameState).fingers.length = 0 := by
            show ¬ (upsertFinger rand now e.pointerId e.clientX e.clientY
              st.fingers).1.length = 0
            omega
          rw [if_neg hne0]
    · by_cases hg : ¬ e.isPrimary ∧ e.pointerType = PtrType.mouse
      · have hstep : step rand now st (Event.pointerMove e) = (st, []) := by
          simp only [step]
          rw [if_pos hg]
        rw [hstep]
      · cases hhas : mapHas st.fingers e.pointerId with
        | true => rw [step_move_state hg hhas, step_upsert_present_state hhas]
        | false => rw [step_move_untracked hhas]
  · intro rand now st e hwf
    constructor
    · intro hhas
      have hfst := removeFinger_fst_present hhas
      have hstate : (step rand now st (Event.pointerUp e)).1
          = reconcileScheduler
              { st with fingers := mapDelete st.fingers e.pointerId } := by
        rw [step_up_state, hfst]
        rw [runEffect_eq_reconcile (by simpa using fingersDepKey_delete_ne hwf hhas)]
      rw [hstate, reconcileScheduler_winnerId, reconcileScheduler_fingers]
    · intro hhas
      have hfst := removeFinger_fst_absent hhas
      rw [step_up_state, hfst]
      have hre := @runEffect_eq_self (fingersDepKey st.fingers)
        { st with fingers := st.fingers } rfl
      rw [hre]
  · intro rand now st hwf hlen ht h0 h1
    obtain ⟨t, hto⟩ := Option.isSome_iff_exists.mp ht
    have h2 : 2 ≤ st.fingers.length := by omega
    have hk1 : 1 ≤ (mapKeys st.fingers).length := by
      rw [← length_eq_length_mapKeys]
      omega
    obtain ⟨-, -, k, hmem, hsome⟩ := tickLoser_spec hk1 h0 h1
    have hk : mapHas st.fingers k = true := mapHas_iff_mem_keys.mpr hmem
    obtain ⟨f, hf, htick⟩ := eliminationTick_some_two hwf hlen hsome hk
    have hfmem : f ∈ st.fingers := by
      have : f ∈ mapDelete st.fingers k := by
        rw [hf]
        exact List.mem_singleton_self f
      exact List.mem_of_mem_filter this
    have hstate : (step rand now st Event.timerFire).1
        = reconcileScheduler
            { st with fingers := [f], winnerId := some f.id } := by
      simp only [step, hto]
      rw [htick]
      rw [runEffect_eq_reconcile (by
        show ¬ fingersDepKey [f] = fingersDepKey st.fingers
        rw [← hf]
        exact fingersDepKey_delete_ne hwf hk)]
      rw [hto]
    refine ⟨f, hfmem, ?_, ?_⟩
    · rw [hstate, reconcileScheduler_fingers]
    · rw [hstate, reconcileScheduler_winnerId]
      simp
  · intro rand now st hwf
    cases hto : st.timer with
    | none =>
      left
      simp only [step, hto]
    | some t =>
      by_cases hlen1 : st.fingers.length ≤ 1
      · left
        simp only [step, hto]
        rw [eliminationTick_low hlen1]
        have hre := @runEffect_eq_self (fingersDepKey st.fingers)
          { st with timer := none } rfl
        rw [hre]
      · have h2 : 2 ≤ st.fingers.length := by omega
        cases hl : tickLoser rand (mapKeys st.fingers) with
        | none =>
          left
          simp only [step, hto]
          rw [eliminationTick_none h2 hl]
          rw [runEffect_eq_self rfl]
        | some k =>
          have hk : mapHas st.fingers k = true :=
            mapHas_iff_mem_keys.mpr (tickLoser_mem hl)
          by_cases hlen2 : st.fingers.length = 2
          · right
            obtain ⟨f, hf, htick⟩ := eliminationTick_some_two hwf hlen2 hl hk
            have hfmem : f ∈ st.fingers := by
              have : f ∈ mapDelete st.fingers k := by
                rw [hf]
                exact List.mem_singleton_self f
              exact List.mem_of_mem_filter this
            have hstate : (step rand now st Event.timerFire).1
                = reconcileScheduler
                    { st with fingers := [f], winnerId := some f.id } := by
              simp only [step, hto]
              rw [htick]
              rw [runEffect_eq_reconcile (by
                show ¬ fingersDepKey [f] = fingersDepKey st.fingers
                rw [← hf]
                exact fingersDepKey_delete_ne hwf hk)]
              rw [hto]
            refine ⟨hlen2, f, hfmem, ?_, ?_⟩
            · rw [hstate, reconcileScheduler_fingers]
            · rw [hstate, reconcileScheduler_winnerId]
              simp
          · left
            have hlen3 : 3 ≤ st.fingers.length := by omega
            have htick := eliminationTick_some_big hwf hlen3 hl hk
            have hstate : (step rand now st Event.timerFire).1
                = reconcileScheduler
                    { st with fingers := mapDelete st.fingers k } := by
              simp only [step, hto]
              rw [htick]
              rw [runEffect_eq_reconcile (by simpa using fingersDepKey_delete_ne hwf hk)]
              rw [hto]
            rw [hstate, reconcileScheduler_winnerId]
            have hdel := length_mapDelete_of_present hwf hk
            have hne0 : ¬ ({ st with fingers := mapDelete st.fingers k } :
                GameState).fingers.length = 0 := by
              show ¬ (mapDelete st.fingers k).length = 0
              omega
            rw [if_neg hne0]

/-- Witness for C4 at concrete inputs: a pointer-down on the empty state
(no winner appears), the removal of the last finger from a one-finger state
with a stale winner (the winner is cleared), a removal of an absent id
(no-op), an elimination tick on a two-finger state (the survivor becomes the
winner), and an elimination tick on a three-finger state (the winner is
unchanged or the size-2 case holds — here the registry has size 3, so the
winner is unchanged). -/
theorem claim_C4_witness :
    ((step (fun _ => (0 : ℚ)) 0 initialState
        (Event.pointerDown
          { pointerId := 1, clientX := 0, clientY := 0,
            pointerType := PtrType.touch, button := 0,
            isPrimary := true })).1.winnerId = initialState.winnerId)
    ∧ ((step (fun _ => (0 : ℚ)) 0
        { fingers := [{ id := 4, x := 0, y := 0, color := "w", createdAt := 0 }],
          winnerId := some 4, bgColor := DEFAULT_BG, timer := none,
          nextTimerId := 2 }
        (Event.pointerUp
          { pointerId := 4, clientX := 0, clientY := 0,
            pointerType := PtrType.touch, button := 0,
            isPrimary := true })).1.winnerId
        = if (step (fun _ => (0 : ℚ)) 0
            { fingers := [{ id := 4, x := 0, y := 0, color := "w", createdAt := 0 }],
              winnerId := some 4, bgColor := DEFAULT_BG, timer := none,
              nextTimerId := 2 }
            (Event.pointerUp
              { pointerId := 4, clientX := 0, clientY := 0,
                pointerType := PtrType.touch, button := 0,
                isPrimary := true })).1.fingers.length = 0
          then none else some 4)
    ∧ ((step (fun _ => (0 : ℚ)) 0
        { fingers := [{ id := 4, x := 0, y := 0, color := "w", createdAt := 0 }],
          winnerId := some 4, bgColor := DEFAULT_BG, timer := none,
          nextTimerId := 2 }
        (Event.pointerUp
          { pointerId := 9, clientX := 0, clientY := 0,
            pointerType := PtrType.touch, button := 0,
            isPrimary := true })).1
        = { fingers := [{ id := 4, x := 0, y := 0, color := "w", createdAt := 0 }],
            winnerId := some 4, bgColor := DEFAULT_BG, timer := none,
            nextTimerId := 2 })
    ∧ (∃ f, f ∈ ([{ id := 7, x := 0, y := 0, color := "a", createdAt := 0 },
                  { id := 8, x := 0, y := 0, color := "b", createdAt := 0 }] :
                 List Finger)
        ∧ (step (fun _ => (0 : ℚ)) 0
            { fingers :=
                [{ id := 7, x := 0, y := 0, color := "a", createdAt := 0 },
                 { id := 8, x := 0, y := 0, color := "b", createdAt := 0 }],
              winnerId := none, bgColor := DEFAULT_BG, timer := some 3,
              nextTimerId := 4 } Event.timerFire).1.fingers = [f]
        ∧ (step (fun _ => (0 : ℚ)) 0
            { fingers :=
                [{ id := 7, x := 0, y := 0, color := "a", createdAt := 0 },
                 { id := 8, x := 0, y := 0, color := "b", createdAt := 0 }],
              winnerId := none, bgColor := DEFAULT_BG, timer := some 3,
              nextTimerId := 4 } Event.timerFire).1.winnerId = some f.id)
    ∧ ((step (fun _ => (0 : ℚ)) 0
          { fingers :=
              [{ id := 11, x := 0, y := 0, color := "a", createdAt := 0 },
               { id := 12, x := 0, y := 0, color := "b", createdAt := 0 },
               { id := 13, x := 0, y := 0, color := "c", createdAt := 0 }],
            winnerId := none, bgColor := DEFAULT_BG, timer := some 5,
            nextTimerId := 6 } Event.timerFire).1.winnerId = none
        ∨ (([{ id := 11, x := 0, y := 0, color := "a", createdAt := 0 },
             { id := 12, x := 0, y := 0, color := "b", createdAt := 0 },
             { id := 13, x := 0, y := 0, color := "c", createdAt := 0 }] :
             List Finger).length = 2
          ∧ ∃ f, f ∈ ([{ id := 11, x := 0, y := 0, color := "a", createdAt := 0 },
                       { id := 12, x := 0, y := 0, color := "b", createdAt := 0 },
                       { id := 13, x := 0, y := 0, color := "c", createdAt := 0 }] :
                       List Finger)
            ∧ (step (fun _ => (0 : ℚ)) 0
                { fingers :=
                    [{ id := 11, x := 0, y := 0, color := "a", createdAt := 0 },
                     { id := 12, x := 0, y := 0, color := "b", createdAt := 0 },
                     { id := 13, x := 0, y := 0, color := "c", createdAt := 0 }],
                  winnerId := none, bgColor := DEFAULT_BG, timer := some 5,
                  nextTimerId := 6 } Event.timerFire).1.fingers = [f]
            ∧ (step (fun _ => (0 : ℚ)) 0
                { fingers :=
                    [{ id := 11, x := 0, y := 0, color := "a", createdAt := 0 },
                     { id := 12, x := 0, y := 0, color := "b", createdAt := 0 },
                     { id := 13, x := 0, y := 0, color := "c", createdAt := 0 }],
                  winnerId := none, bgColor := DEFAULT_BG, timer := some 5,
                  nextTimerId := 6 } Event.timerFire).1.winnerId = some f.id)) := by
  refine ⟨?_, ?_, ?_, ?_, ?_⟩
  · exact (claim_C4.1 (fun _ => (0 : ℚ)) 0 initialState
      { pointerId := 1, clientX := 0, clientY := 0,
        pointerType := PtrType.touch, button := 0, isPrimary := true }).1
  · exact (claim_C4.2.1 (fun _ => (0 : ℚ)) 0
      { fingers := [{ id := 4, x := 0, y := 0, color := "w", createdAt := 0 }],
        winnerId := some 4, bgColor := DEFAULT_BG, timer := none,
        nextTimerId := 2 }
      { pointerId := 4, clientX := 0, clientY := 0,
        pointerType := PtrType.touch, button := 0, isPrimary := true }
      (by unfold RegWF; decide)).1 rfl
  · exact (claim_C4.2.1 (fun _ => (0 : ℚ)) 0
      { fingers := [{ id := 4, x := 0, y := 0, color := "w", createdAt := 0 }],
        winnerId := some 4, bgColor := DEFAULT_BG, timer := none,
        nextTimerId := 2 }
      { pointerId := 9, clientX := 0, clientY := 0,
        pointerType := PtrType.touch, button := 0, isPrimary := true }
      (by unfold RegWF; decide)).2 rfl
  · exact claim_C4.2.2.1 (fun _ => (0 : ℚ)) 0
      { fingers := [{ id := 7, x := 0, y := 0, color := "a", createdAt := 0 },
                    { id := 8, x := 0, y := 0, color := "b", createdAt := 0 }],
        winnerId := none, bgColor := DEFAULT_BG, timer := some 3,
        nextTimerId := 4 }
      (by unfold RegWF; decide) rfl rfl (by with_unfolding_all decide)
      (by with_unfolding_all decide)
  · exact claim_C4.2.2.2 (fun _ => (0 : ℚ)) 0
      { fingers := [{ id := 11, x := 0, y := 0, color := "a", createdAt := 0 },
                    { id := 12, x := 0, y := 0, color := "b", createdAt := 0 },
                    { id := 13, x := 0, y := 0, color := "c", createdAt := 0 }],
        winnerId := none, bgColor := DEFAULT_BG, timer := some 5,
        nextTimerId := 6 }
      (by unfold RegWF; decide)

end TheChosenOne
